import Mathlib

/-!
# Verification of the dumpSTR / siSTR filtering core (TRTools)

Shallow embedding of `trtools/dumpSTR/dumpSTR.py` (call-level filtering,
locus-level filtering, statistics accumulation, locus INFO recomputation)
and of `trtools/siSTR/siSTR.py` (command dispatch), together with theorems
settling the specification claims about them.

Modelling conventions:
* numpy float NaN is modelled as `Option ℚ` with `none` standing for NaN;
* numpy fixed-width string arrays are modelled as ordinary unbounded strings;
* a per-sample FORMAT array is one of three dtypes (unicode / float / int),
  mirroring the three dtype kinds `'U'`, `'f'`, `'i'` handled by the source;
* Python exceptions escaping a function are modelled by `Except`;
* records hold `n` samples, indexed by `Fin n`.
-/

namespace DumpSTR

/-- The fixed out-of-range integer sentinel `_NOCALL_INT_FORMAT_VAL`
(dumpSTR.py line 545). -/
def nocallInt : Int := -2147483648

/-- One per-sample FORMAT field array of a record, by storage dtype.
Mirrors the three numpy dtype kinds (`'U'`, `'f'`, `'i'`) that the masking
loop of `ApplyCallFilters` distinguishes (dumpSTR.py lines 670-676).
`none` in a float array stands for NaN. -/
inductive FormatArr (n : Nat) where
  | strA (vals : Fin n → String)
  | fltA (vals : Fin n → Option ℚ)
  | intA (vals : Fin n → Int)

/-- One genomic locus, the harmonized record model of spec §3.
`genotypes` is the sample × ploidy matrix of allele indices where `-1` is the
missing sentinel (cyvcf2 convention); `format` is the mapping from FORMAT
field name to per-sample value array; `filterStatus` is the single textual
locus-level FILTER status (`none` = unset). -/
structure TRRecord (n : Nat) where
  chrom : String
  pos : Nat
  refAllele : String
  altAlleles : List String
  motif : String
  genotypes : Fin n → List Int
  format : List (String × FormatArr n)
  filterStatus : Option String

/-- Modelled from the spec: `trh.TRRecord.GetCalledSamples` lives in
`trtools/utils/tr_harmonizer.py`, which is not part of the embedded sources.
Spec §3: genotype values are allele indices or a missing sentinel; a sample is
called when its genotype contains no missing sentinel (and is nonempty). -/
def calledGT (g : List Int) : Bool :=
  !g.isEmpty && g.all (fun a => a != -1)

/-- `np.sum(record.GetCalledSamples())`: how many samples are called. -/
def calledCount {n : Nat} (r : TRRecord n) : Nat :=
  ((List.finRange n).filter (fun i => calledGT (r.genotypes i))).length

/-- Modelled from the spec: `trh.TRRecord.GetMaxPloidy` is outside the
embedded sources; spec §3 says the maximum ploidy across samples is knowable.
Here it is the maximum genotype length. -/
def maxPloidy {n : Nat} (r : TRRecord n) : Nat :=
  ((List.finRange n).map (fun i => (r.genotypes i).length)).foldr max 0

/-- A call-level filter (spec §3): a named pure function from the record to a
per-sample metric array, where `none` (NaN in the source) means the filter did
not fire for that sample. -/
structure CallFilter (n : Nat) where
  name : String
  eval : TRRecord n → Fin n → Option ℚ

/-- Stand-in for the C `%g` rendering applied by `np.char.mod('%g', ...)`
(dumpSTR.py line 599); the claims depend only on the trigger value being
rendered as some string, not on its exact digits. -/
def fmtG (q : ℚ) : String :=
  if q.den = 1 then toString q.num else toString q.num ++ "/" ++ toString q.den

/-- Comma-separated concatenation, as produced by the per-sample trigger-text
accumulation of `ApplyCallFilters` and by `','.join` in `main`. -/
def commaJoin : List String → String
  | [] => ""
  | [s] => s
  | s :: t :: rest => s ++ "," ++ commaJoin (t :: rest)

/-- numpy fixed-width unicode truncation: assigning a value into a `U<w>`
array slot silently keeps only its first `w` characters. -/
def strTake (s : String) (w : Nat) : String := String.mk (s.data.take w)

/-- The `'%g' %` rendering of one metric entry performed by
`np.char.mod('%g', filt_output)` (line 599). This is applied to the whole
output array before the NaN entries are zeroed at line 602, so a NaN entry
renders as `"nan"` and still contributes to the widened dtype. -/
def rendOpt : Option ℚ → String
  | some v => fmtG v
  | none => "nan"

/-- The itemsize of `np.char.mod('%g', filt_output)` (line 599): the longest
rendered entry across the samples. -/
def entryMaxWidth {n : Nat} (f : CallFilter n) (r : TRRecord n) : Nat :=
  ((List.finRange n).map (fun i => (rendOpt (f.eval r i)).length)).foldr max 0

/-- A fixed-width numpy unicode array: the dtype's character count plus the
per-sample values (each at most `width` characters long). -/
structure FWText (n : Nat) where
  width : Nat
  vals : Fin n → String

/-- `np.empty((n), 'U4')` (line 585): width 4, empty values. -/
def fwInit (n : Nat) : FWText n := ⟨4, fun _ => ""⟩

/-- One iteration of the per-filter loop of `ApplyCallFilters`
(dumpSTR.py lines 588-608), acting on the fixed-width running trigger text
`all_filter_text`. An all-NaN filter is skipped (line 594). Otherwise the
per-filter text `name ++ '_' ++ value` is built with itemsize
`name.length + 1 + entryMaxWidth` (lines 599-601); the comma is appended IN
PLACE into the array of the current width (lines 605-607) — `np.char.add`
returns values one character wider, and the assignment back into the
still-unwidened array silently drops the comma for a sample whose text
already fills the width — and only then is the array rebound to the widened
concatenation (line 608). -/
def fwStep {n : Nat} (r : TRRecord n) (arr : FWText n) (f : CallFilter n) :
    FWText n :=
  if (List.finRange n).all (fun j => (f.eval r j).isNone) then arr
  else
    { width := arr.width + (f.name.length + 1 + entryMaxWidth f r),
      vals := fun i =>
        match f.eval r i with
        | none => arr.vals i
        | some v =>
            (if arr.vals i = "" then arr.vals i
             else strTake (arr.vals i ++ ",") arr.width)
              ++ (f.name ++ "_" ++ fmtG v) }

/-- The trigger text accumulated over the whole filter loop, before the
no-call override. -/
def fwTextArr {n : Nat} (fs : List (CallFilter n)) (r : TRRecord n) : FWText n :=
  fs.foldl (fwStep r) (fwInit n)

/-- The final per-sample trigger text written to the FILTER FORMAT field
(dumpSTR.py lines 610-619): samples that were never called get exactly
`"NOCALL"`, overriding any filter text; a called sample with empty text gets
`"PASS"` (which always fits: the width starts at 4 and never shrinks). -/
def finalFilterText {n : Nat} (fs : List (CallFilter n)) (r : TRRecord n) :
    Fin n → String := fun i =>
  if calledGT (r.genotypes i) then
    (if (fwTextArr fs r).vals i = "" then "PASS" else (fwTextArr fs r).vals i)
  else "NOCALL"

/-- The idealized (unbounded-width) accumulation step: entry appended after
a comma iff the text is nonempty. The fixed-width fold agrees with folding
this exactly while the sample's text never fills the array width. -/
def joinStep (t e : String) : String := (if t = "" then t else t ++ ",") ++ e

/-- The trigger-text entries (`<name>_<value>`) of the filters firing on
sample `i`, in filter-registration order. -/
def firedTexts {n : Nat} (fs : List (CallFilter n)) (r : TRRecord n) (i : Fin n) :
    List String :=
  fs.filterMap (fun f => (f.eval r i).map (fun v => f.name ++ "_" ++ fmtG v))

/-! ### Characterization of the trigger text -/

theorem empty_append (s : String) : "" ++ s = s := by
  cases s
  rfl

theorem commaJoin_cons (s : String) (l : List String) (h : l ≠ []) :
    commaJoin (s :: l) = s ++ "," ++ commaJoin l := by
  cases l with
  | nil => exact absurd rfl h
  | cons t rest => rfl

theorem length_underscore : ("_" : String).length = 1 := rfl

theorem length_comma : ("," : String).length = 1 := rfl

theorem append_underscore_ne_empty (s t : String) : s ++ "_" ++ t ≠ "" := by
  intro h
  have hl : (s ++ "_" ++ t).length = 0 := by rw [h]; rfl
  rw [String.length_append, String.length_append, length_underscore] at hl
  omega

theorem underscore_mem_append (s t : String) : '_' ∈ (s ++ "_" ++ t).data := by
  have h : (s ++ "_" ++ t).data = (s.data ++ ['_']) ++ t.data := by
    rfl
  rw [h]
  exact List.mem_append_left _ (List.mem_append_right _ (List.mem_singleton.mpr rfl))

theorem underscore_mem_commaJoin (e : String) (l : List String)
    (he : '_' ∈ e.data) : '_' ∈ (commaJoin (e :: l)).data := by
  cases l with
  | nil => exact he
  | cons t rest =>
    rw [commaJoin_cons e (t :: rest) (by simp)]
    have h : (e ++ "," ++ commaJoin (t :: rest)).data
        = (e.data ++ [',']) ++ (commaJoin (t :: rest)).data := rfl
    rw [h]
    exact List.mem_append_left _ (List.mem_append_left _ he)

theorem mem_firedTexts_underscore {n : Nat} {fs : List (CallFilter n)}
    {r : TRRecord n} {i : Fin n} {e : String} (he : e ∈ firedTexts fs r i) :
    '_' ∈ e.data := by
  unfold firedTexts at he
  obtain ⟨f, _, hf⟩ := List.mem_filterMap.mp he
  cases hval : f.eval r i with
  | none => rw [hval] at hf; exact absurd hf (by simp)
  | some v =>
    rw [hval] at hf
    simp only [Option.map_some', Option.some.injEq] at hf
    rw [← hf]
    exact underscore_mem_append _ _

theorem length_pos_of_ne_empty {s : String} (h : s ≠ "") : 0 < s.length := by
  cases s with
  | mk data =>
    cases data with
    | nil => exact absurd rfl h
    | cons c cs => simp [String.length]

theorem append_ne_empty_right (s : String) {t : String} (h : t ≠ "") :
    s ++ t ≠ "" := by
  intro hcon
  have hl := congrArg String.length hcon
  rw [String.length_append] at hl
  have hpos := length_pos_of_ne_empty h
  have h0 : ("" : String).length = 0 := rfl
  rw [h0] at hl
  omega

theorem strTake_of_le (s : String) (w : Nat) (h : s.length ≤ w) :
    strTake s w = s := by
  unfold strTake
  rw [List.take_of_length_le h]

theorem le_foldr_max : ∀ (l : List Nat) (a : Nat), a ∈ l → a ≤ l.foldr max 0
  | b :: l, a, h => by
    rcases List.mem_cons.mp h with h | h
    · subst h
      exact le_max_left _ _
    · exact le_trans (le_foldr_max l a h) (le_max_right _ _)

theorem le_entryMaxWidth {n : Nat} (f : CallFilter n) (r : TRRecord n)
    (i : Fin n) : (rendOpt (f.eval r i)).length ≤ entryMaxWidth f r :=
  le_foldr_max _ _ (List.mem_map.mpr ⟨i, List.mem_finRange i, rfl⟩)

/-- A filter list none of whose members fires on sample `i` leaves that
sample's trigger text untouched (width growth aside). -/
theorem fwFold_vals_of_no_fire {n : Nat} (r : TRRecord n) (i : Fin n) :
    ∀ (fs : List (CallFilter n)) (arr : FWText n), firedTexts fs r i = [] →
    (fs.foldl (fwStep r) arr).vals i = arr.vals i
  | [], _, _ => rfl
  | f :: fs, arr, h => by
    have hfe : f.eval r i = none := by
      cases hv : f.eval r i with
      | none => rfl
      | some v =>
        exfalso
        unfold firedTexts at h
        rw [List.filterMap_cons, hv] at h
        simp at h
    have hrest : firedTexts fs r i = [] := by
      unfold firedTexts at h ⊢
      rw [List.filterMap_cons, hfe] at h
      exact h
    rw [List.foldl_cons, fwFold_vals_of_no_fire r i fs (fwStep r arr f) hrest]
    unfold fwStep
    by_cases hall : (List.finRange n).all (fun j => (f.eval r j).isNone) = true
    · rw [if_pos hall]
    · rw [if_neg hall]
      dsimp only
      rw [hfe]

/-- A sample on which some filter fired carries an underscore in its trigger
text: each entry ends up appended intact at the widening concatenation, and
the in-place truncation only ever drops a trailing comma. -/
theorem fwFold_vals_underscore {n : Nat} (r : TRRecord n) (i : Fin n) :
    ∀ (fs : List (CallFilter n)) (arr : FWText n), firedTexts fs r i ≠ [] →
    '_' ∈ ((fs.foldl (fwStep r) arr).vals i).data
  | [], _, h => absurd (by simp [firedTexts]) h
  | f :: fs, arr, h => by
    cases hv : f.eval r i with
    | none =>
      have hrest : firedTexts fs r i ≠ [] := by
        unfold firedTexts at h ⊢
        rw [List.filterMap_cons, hv] at h
        exact h
      rw [List.foldl_cons]
      exact fwFold_vals_underscore r i fs (fwStep r arr f) hrest
    | some v =>
      rw [List.foldl_cons]
      by_cases hrest : firedTexts fs r i = []
      · rw [fwFold_vals_of_no_fire r i fs (fwStep r arr f) hrest]
        have hall : ¬((List.finRange n).all (fun j => (f.eval r j).isNone) = true) := by
          intro hall
          have := List.all_eq_true.mp hall i (List.mem_finRange i)
          rw [hv] at this
          exact absurd this (by simp)
        unfold fwStep
        rw [if_neg hall]
        dsimp only
        rw [hv]
        have hdata : ((if arr.vals i = "" then arr.vals i
              else strTake (arr.vals i ++ ",") arr.width)
            ++ (f.name ++ "_" ++ fmtG v)).data
            = (if arr.vals i = "" then arr.vals i
                else strTake (arr.vals i ++ ",") arr.width).data
              ++ (f.name ++ "_" ++ fmtG v).data := rfl
        rw [hdata]
        exact List.mem_append_right _ (underscore_mem_append _ _)
      · exact fwFold_vals_underscore r i fs (fwStep r arr f) hrest

/-- Folding the idealized accumulation step yields the comma-join of the
entries. -/
theorem foldl_joinStep_char : ∀ (es : List String) (t : String),
    (∀ e ∈ es, e ≠ "") →
    es.foldl joinStep t
      = if es = [] then t
        else (if t = "" then t else t ++ ",") ++ commaJoin es
  | [], t, _ => by simp
  | e :: es, t, hne => by
    rw [List.foldl_cons,
      foldl_joinStep_char es (joinStep t e) (fun x hx => hne x (List.mem_cons_of_mem e hx))]
    have hene : e ≠ "" := hne e (List.mem_cons_self e es)
    have hjne : joinStep t e ≠ "" := append_ne_empty_right _ hene
    by_cases hrest : es = []
    · rw [if_pos hrest, if_neg (by simp : ¬(e :: es = [])), hrest]
      rfl
    · rw [if_neg hrest, if_neg (by simp : ¬(e :: es = [])), if_neg hjne,
        commaJoin_cons e es hrest]
      unfold joinStep
      simp only [String.append_assoc]

/-- The heart of the truncation analysis: starting from slack
`if c = 0 then 4 else 5 - c` (where `c` counts the entries already joined
into the sample's text), the fixed-width fold agrees with the idealized
fold as long as at most `5 - c` more filters fire on the sample. Each
in-place comma append consumes at most one character of slack, and the
first firing consumes none, so the initial `'U4'` slack of 4 suffices for
five firing filters. -/
theorem fwFold_no_trunc {n : Nat} (r : TRRecord n) (i : Fin n) :
    ∀ (fs : List (CallFilter n)) (arr : FWText n) (c : Nat),
    (arr.vals i).length + (if c = 0 then 4 else 5 - c) ≤ arr.width →
    c + (firedTexts fs r i).length ≤ 5 →
    ((arr.vals i = "") ↔ c = 0) →
    (fs.foldl (fwStep r) arr).vals i
      = (firedTexts fs r i).foldl joinStep (arr.vals i)
  | [], arr, c, _, _, _ => by simp [firedTexts]
  | f :: fs, arr, c, hw, hc, he => by
    rw [List.foldl_cons]
    by_cases hall : (List.finRange n).all (fun j => (f.eval r j).isNone) = true
    · have hfe : f.eval r i = none := by
        have := List.all_eq_true.mp hall i (List.mem_finRange i)
        cases hv : f.eval r i with
        | none => rfl
        | some v => rw [hv] at this; exact absurd this (by simp)
      have hstep : fwStep r arr f = arr := by
        unfold fwStep
        rw [if_pos hall]
      have hfired : firedTexts (f :: fs) r i = firedTexts fs r i := by
        unfold firedTexts
        rw [List.filterMap_cons, hfe]
        rfl
      rw [hstep, hfired]
      rw [hfired] at hc
      exact fwFold_no_trunc r i fs arr c hw hc he
    · have hstep : fwStep r arr f =
          { width := arr.width + (f.name.length + 1 + entryMaxWidth f r),
            vals := fun j =>
              match f.eval r j with
              | none => arr.vals j
              | some v =>
                  (if arr.vals j = "" then arr.vals j
                   else strTake (arr.vals j ++ ",") arr.width)
                    ++ (f.name ++ "_" ++ fmtG v) } := by
        unfold fwStep
        rw [if_neg hall]
      cases hv : f.eval r i with
      | none =>
        have hfired : firedTexts (f :: fs) r i = firedTexts fs r i := by
          unfold firedTexts
          rw [List.filterMap_cons, hv]
          rfl
        have hvals : (fwStep r arr f).vals i = arr.vals i := by
          rw [hstep]
          dsimp only
          rw [hv]
        have h1 : ((fwStep r arr f).vals i).length + (if c = 0 then 4 else 5 - c)
            ≤ (fwStep r arr f).width := by
          rw [hvals, hstep]
          dsimp only
          omega
        have h2 : c + (firedTexts fs r i).length ≤ 5 := by
          rw [hfired] at hc
          exact hc
        have h3 : ((fwStep r arr f).vals i = "") ↔ c = 0 := by
          rw [hvals]
          exact he
        rw [hfired, fwFold_no_trunc r i fs (fwStep r arr f) c h1 h2 h3, hvals]
      | some v =>
        have hfired : firedTexts (f :: fs) r i
            = (f.name ++ "_" ++ fmtG v) :: firedTexts fs r i := by
          unfold firedTexts
          rw [List.filterMap_cons, hv]
          rfl
        have hElen : (f.name ++ "_" ++ fmtG v).length
            = f.name.length + 1 + (fmtG v).length := by
          rw [String.length_append, String.length_append, length_underscore]
        have hEmax : (fmtG v).length ≤ entryMaxWidth f r := by
          have h := le_entryMaxWidth f r i
          rw [hv] at h
          exact h
        have hEne : (f.name ++ "_" ++ fmtG v) ≠ "" := append_underscore_ne_empty _ _
        by_cases hc0 : c = 0
        · have hemp : arr.vals i = "" := he.mpr hc0
          have hvals : (fwStep r arr f).vals i = "" ++ (f.name ++ "_" ++ fmtG v) := by
            rw [hstep]
            dsimp only
            rw [hv, hemp, if_pos rfl]
          have hvne : (fwStep r arr f).vals i ≠ "" := by
            rw [hvals, empty_append]
            exact hEne
          have h4 : 4 ≤ arr.width := by
            rw [hemp, hc0] at hw
            simpa using hw
          have h1 : ((fwStep r arr f).vals i).length + (if (1 : Nat) = 0 then 4 else 5 - 1)
              ≤ (fwStep r arr f).width := by
            rw [hvals, empty_append, hstep]
            dsimp only
            rw [hElen, if_neg (by decide : ¬((1 : Nat) = 0))]
            omega
          have h2 : 1 + (firedTexts fs r i).length ≤ 5 := by
            rw [hfired, hc0] at hc
            simp only [List.length_cons] at hc
            omega
          have h3 : ((fwStep r arr f).vals i = "") ↔ (1 : Nat) = 0 := by
            constructor
            · intro hcon
              exact absurd hcon hvne
            · intro hcon
              exact absurd hcon (by decide)
          rw [hfired, List.foldl_cons,
            fwFold_no_trunc r i fs (fwStep r arr f) 1 h1 h2 h3, hvals, hemp]
          congr 1
        · have hne0 : arr.vals i ≠ "" := fun hcon => hc0 (he.mp hcon)
          have hcle : c ≤ 4 := by
            rw [hfired] at hc
            simp only [List.length_cons] at hc
            omega
          have hwc : (arr.vals i).length + (5 - c) ≤ arr.width := by
            rw [if_neg hc0] at hw
            exact hw
          have hfit : (arr.vals i ++ ",").length ≤ arr.width := by
            rw [String.length_append, length_comma]
            omega
          have htake : strTake (arr.vals i ++ ",") arr.width = arr.vals i ++ "," :=
            strTake_of_le _ _ hfit
          have hvals : (fwStep r arr f).vals i
              = (arr.vals i ++ ",") ++ (f.name ++ "_" ++ fmtG v) := by
            rw [hstep]
            dsimp only
            rw [hv, if_neg hne0, htake]
          have hvne : (fwStep r arr f).vals i ≠ "" := by
            rw [hvals]
            exact append_ne_empty_right _ hEne
          have h1 : ((fwStep r arr f).vals i).length + (if c + 1 = 0 then 4 else 5 - (c + 1))
              ≤ (fwStep r arr f).width := by
            rw [hvals, hstep]
            dsimp only
            rw [String.length_append, String.length_append, length_comma, hElen,
              if_neg (Nat.succ_ne_zero c)]
            omega
          have h2 : (c + 1) + (firedTexts fs r i).length ≤ 5 := by
            rw [hfired] at hc
            simp only [List.length_cons] at hc
            omega
          have h3 : ((fwStep r arr f).vals i = "") ↔ c + 1 = 0 := by
            constructor
            · intro hcon
              exact absurd hcon hvne
            · intro hcon
              exact absurd hcon (Nat.succ_ne_zero c)
          rw [hfired, List.foldl_cons,
            fwFold_no_trunc r i fs (fwStep r arr f) (c + 1) h1 h2 h3, hvals]
          congr 1
          unfold joinStep
          rw [if_neg hne0]

theorem commaJoin_ne_of_no_underscore {l : List String}
    (hl : l ≠ []) (hmem : ∀ e ∈ l, '_' ∈ e.data) {s : String}
    (hs : '_' ∉ s.data) : commaJoin l ≠ s := by
  intro h
  cases l with
  | nil => exact hl rfl
  | cons e rest =>
    have := underscore_mem_commaJoin e rest (hmem e (List.mem_cons_self e rest))
    rw [h] at this
    exact hs this

/-- A called sample's final trigger text is `"PASS"` exactly when no filter
fired on it — the fixed-width truncation can only drop a trailing comma and
never turns a fired sample's text into `"PASS"`. -/
theorem finalFilterText_eq_PASS_iff {n : Nat} (fs : List (CallFilter n))
    (r : TRRecord n) (i : Fin n) :
    finalFilterText fs r i = "PASS"
      ↔ (calledGT (r.genotypes i) = true ∧ firedTexts fs r i = []) := by
  unfold finalFilterText
  by_cases hc : calledGT (r.genotypes i)
  · rw [if_pos hc]
    by_cases hf : firedTexts fs r i = []
    · have hv : (fwTextArr fs r).vals i = "" := by
        have h := fwFold_vals_of_no_fire r i fs (fwInit n) hf
        exact h
      rw [hv, if_pos rfl]
      simp [hc, hf]
    · have hu : '_' ∈ ((fwTextArr fs r).vals i).data :=
        fwFold_vals_underscore r i fs (fwInit n) hf
      have hvne : (fwTextArr fs r).vals i ≠ "" := by
        intro hcon
        rw [hcon] at hu
        exact absurd hu (by decide)
      rw [if_neg hvne]
      constructor
      · intro hcon
        rw [hcon] at hu
        exact absurd hu (by decide)
      · intro hcf
        exact absurd hcf.2 hf
  · rw [if_neg hc]
    constructor
    · intro hcon
      exact absurd hcon (by decide)
    · intro hcf
      exact absurd hcf.1 hc

/-- A sample's final trigger text is `"NOCALL"` exactly when the sample was
already uncalled. -/
theorem finalFilterText_eq_NOCALL_iff {n : Nat} (fs : List (CallFilter n))
    (r : TRRecord n) (i : Fin n) :
    finalFilterText fs r i = "NOCALL" ↔ calledGT (r.genotypes i) = false := by
  unfold finalFilterText
  by_cases hc : calledGT (r.genotypes i)
  · rw [if_pos hc]
    constructor
    · intro hcon
      by_cases hf : firedTexts fs r i = []
      · have hv : (fwTextArr fs r).vals i = "" :=
          fwFold_vals_of_no_fire r i fs (fwInit n) hf
        rw [hv, if_pos rfl] at hcon
        exact absurd hcon (by decide)
      · have hu : '_' ∈ ((fwTextArr fs r).vals i).data :=
          fwFold_vals_underscore r i fs (fwInit n) hf
        have hvne : (fwTextArr fs r).vals i ≠ "" := by
          intro hcon'
          rw [hcon'] at hu
          exact absurd hu (by decide)
        rw [if_neg hvne] at hcon
        rw [hcon] at hu
        exact absurd hu (by decide)
    · intro hcon
      rw [hc] at hcon
      exact absurd hcon (by decide)
  · rw [if_neg hc]
    simp [Bool.eq_false_iff.mpr hc]

/-- For a called sample on which at least one filter fired, the final trigger
text is the comma-join of the firing entries, provided at most five filters
fired on the sample (so the fixed-width slack never runs out and no comma is
truncated away). -/
theorem finalFilterText_eq_commaJoin_of_le {n : Nat} {fs : List (CallFilter n)}
    {r : TRRecord n} {i : Fin n} (hc : calledGT (r.genotypes i) = true)
    (hf : firedTexts fs r i ≠ []) (h5 : (firedTexts fs r i).length ≤ 5) :
    finalFilterText fs r i = commaJoin (firedTexts fs r i) := by
  have hvals : (fwTextArr fs r).vals i = (firedTexts fs r i).foldl joinStep "" := by
    have h := fwFold_no_trunc r i fs (fwInit n) 0
      (by simp [fwInit]) (by simpa using h5) (by simp [fwInit])
    exact h
  have hne : ∀ e ∈ firedTexts fs r i, e ≠ "" := by
    intro e he hcon
    have := mem_firedTexts_underscore he
    rw [hcon] at this
    exact absurd this (by decide)
  have hjoin : (firedTexts fs r i).foldl joinStep ""
      = commaJoin (firedTexts fs r i) := by
    rw [foldl_joinStep_char (firedTexts fs r i) "" hne, if_neg hf, if_pos rfl,
      empty_append]
  have hu : '_' ∈ ((fwTextArr fs r).vals i).data :=
    fwFold_vals_underscore r i fs (fwInit n) hf
  have hvne : (fwTextArr fs r).vals i ≠ "" := by
    intro hcon
    rw [hcon] at hu
    exact absurd hu (by decide)
  unfold finalFilterText
  rw [if_pos hc, if_neg hvne, hvals, hjoin]

/-! ### The full `ApplyCallFilters` pipeline (dumpSTR.py lines 548-717) -/

/-- Per-sample statistics tables kept by `main` and updated once per record
by `ApplyCallFilters` (spec §3 "Sample statistics table"): the fixed
`numcalls` and `totaldp` entries, then one counter per call filter keyed by
filter name. `totaldp` is a float array in the source; `none` is NaN. -/
structure SampleInfo (n : Nat) where
  numcalls : Fin n → Nat
  totaldp : Fin n → Option ℚ
  filtCounts : String → Fin n → Nat

/-- Errors with which `ApplyCallFilters` can abort.
`sampleNamesTypeError` is the abort on the negative-depth path (lines
634-640): the source means to raise a `ValueError` naming the record's
chromosome, position and offending samples, but evaluating the message's
arguments applies the numpy boolean mask `negative_dp_called_samples` to
`sample_names`, which `main` passes as `invcf.samples` — a plain Python list
(line 1221) — so a `TypeError` (`IndexError` in the single-sample case) is
raised while formatting and the fatal error names neither locus nor samples.
`missingDepthField` is the `KeyError` escaping the lookup
`record.format['LC']` at line 627: in Python an exception raised inside an
`except` handler is not caught by a later `except` clause of the same `try`,
so the `except KeyError: pass` at lines 628-629 is unreachable and the error
propagates out of the function. `nonNumericDepth` is the `TypeError` from
comparing a string-dtype array with `0`. -/
inductive CallErr where
  | sampleNamesTypeError
  | missingDepthField
  | nonNumericDepth
  deriving DecidableEq

/-- `record.format[key]` lookup on the FORMAT mapping. -/
def fmtLookup {n : Nat} (fmt : List (String × FormatArr n)) (k : String) :
    Option (FormatArr n) :=
  match fmt.find? (fun p => p.1 == k) with
  | some p => some p.2
  | none => none

/-- The depth-like field fallback of lines 623-629: `"DP"` first, else
`"LC"`. `none` means both lookups failed, in which case the source raises
the uncaught `KeyError` (see `CallErr.missingDepthField`); the
`else` branch at lines 646-647 setting every `totaldp` entry to NaN is
consequently dead code. -/
def dpField {n : Nat} (fmt : List (String × FormatArr n)) : Option (FormatArr n) :=
  match fmtLookup fmt "DP" with
  | some v => some v
  | none => fmtLookup fmt "LC"

/-- Elementwise `dp_vals < 0` (line 633). NaN compares false. -/
def faLtZero {n : Nat} : FormatArr n → Fin n → Bool
  | .intA v, i => decide (v i < 0)
  | .fltA v, i => match v i with | some q => decide (q < 0) | none => false
  | .strA _, _ => false

/-- Elementwise `dp_vals == _NOCALL_INT_FORMAT_VAL` (lines 633, 645). -/
def faEqSentinel {n : Nat} : FormatArr n → Fin n → Bool
  | .intA v, i => decide (v i = nocallInt)
  | .fltA v, i => match v i with | some q => decide (q = (nocallInt : ℚ)) | none => false
  | .strA _, _ => false

/-- Elementwise `dp_vals > 0` (line 641). NaN compares false. -/
def faGtZero {n : Nat} : FormatArr n → Fin n → Bool
  | .intA v, i => decide (0 < v i)
  | .fltA v, i => match v i with | some q => decide (0 < q) | none => false
  | .strA _, _ => false

/-- Elementwise numeric value of a FORMAT array, as a rational. -/
def faVal {n : Nat} : FormatArr n → Fin n → ℚ
  | .intA v, i => (v i : ℚ)
  | .fltA v, i => (v i).getD 0
  | .strA _, _ => 0

/-- `extant_calls = all_filter_text == 'PASS'` (line 621): samples whose
final status is a passing call. -/
def extantOf {n : Nat} (fs : List (CallFilter n)) (r : TRRecord n) :
    Fin n → Bool := fun i =>
  finalFilterText fs r i == "PASS"

/-- `filtered_samples` (lines 649-651): samples whose final text is neither
`'PASS'` nor `'NOCALL'`. -/
def filteredOf {n : Nat} (fs : List (CallFilter n)) (r : TRRecord n) :
    Fin n → Bool := fun i =>
  !(finalFilterText fs r i == "PASS") && !(finalFilterText fs r i == "NOCALL")

/-- `negative_dp_called_samples` (lines 632-633). -/
def negDepthOf {n : Nat} (fs : List (CallFilter n)) (r : TRRecord n)
    (dpArr : FormatArr n) : Fin n → Bool := fun i =>
  faLtZero dpArr i && !faEqSentinel dpArr i && extantOf fs r i

/-- One step of the per-filter statistics update
`sample_info[filt.name] += np.logical_and(~nans, ~nocalls)` (line 596):
the filter's counter is incremented for each sample on which it fired and
that was called before any filter ran. -/
def countStep {n : Nat} (r : TRRecord n) (c : String → Fin n → Nat)
    (f : CallFilter n) : String → Fin n → Nat := fun nm i =>
  if nm = f.name ∧ (f.eval r i).isSome ∧ calledGT (r.genotypes i) then
    c nm i + 1
  else c nm i

/-- The statistics updates of lines 596 and 622: per-filter trigger counters
and `sample_info['numcalls'] += extant_calls`. -/
def sinfoNumcalls {n : Nat} (fs : List (CallFilter n)) (r : TRRecord n)
    (s : SampleInfo n) : SampleInfo n :=
  { s with
    numcalls := fun i => s.numcalls i + (if extantOf fs r i then 1 else 0),
    filtCounts := fs.foldl (countStep r) s.filtCounts }

/-- The depth accumulation of lines 641-645: passing calls with positive
depth accumulate into `totaldp`; a passing call carrying the integer missing
sentinel poisons that sample's `totaldp` to NaN. -/
def sinfoDepth {n : Nat} (fs : List (CallFilter n)) (r : TRRecord n)
    (dpArr : FormatArr n) (s : SampleInfo n) : SampleInfo n :=
  { s with
    totaldp := fun i =>
      if extantOf fs r i && faEqSentinel dpArr i then none
      else if extantOf fs r i && faGtZero dpArr i then
        (s.totaldp i).map (fun q => q + faVal dpArr i)
      else s.totaldp i }

/-- The genotype and FORMAT-field masking of lines 655-680: filtered samples
get an all-missing genotype of the record's maximum ploidy, and every other
per-sample field is overwritten with the dtype-appropriate missing sentinel
(`'.'` / NaN / `_NOCALL_INT_FORMAT_VAL`); the `GT` and `FILTER` fields are
skipped (line 665). -/
def maskFormatArr {n : Nat} (mask : Fin n → Bool) : FormatArr n → FormatArr n
  | .strA v => .strA (fun i => if mask i then "." else v i)
  | .fltA v => .fltA (fun i => if mask i then none else v i)
  | .intA v => .intA (fun i => if mask i then nocallInt else v i)

/-- Mask the record in place and rebuild (lines 655-717). The rebuild at
lines 682-716 constructs a `TRRecord` around the same underlying variant
record, preserving the representational choices (fabricated alleles,
trimmed positions); in this model those carried fields pass through
unchanged. -/
def maskRecord {n : Nat} (r : TRRecord n) (mask : Fin n → Bool) : TRRecord n :=
  { r with
    genotypes := fun i =>
      if mask i then List.replicate (maxPloidy r) (-1) else r.genotypes i,
    format := r.format.map (fun p =>
      if p.1 = "GT" ∨ p.1 = "FILTER" then p else (p.1, maskFormatArr mask p.2)) }

/-- The value of `ApplyCallFilters` on success: the (possibly masked)
record, the updated sample statistics, and the per-sample trigger text
written to the FILTER FORMAT field at line 619. The text is carried as its
own component since the source treats that field specially throughout
(written at line 619, skipped by masking at line 665). -/
structure CallFiltersOut (n : Nat) where
  outRecord : TRRecord n
  sinfo : SampleInfo n
  filterText : Fin n → String

/-- `ApplyCallFilters` (dumpSTR.py lines 548-717). On the raising paths the
partially-updated statistics of the mutable Python dict are not modelled,
since the run aborts. The `sample_names` parameter mirrors the source
signature; it is consumed only by the message construction that itself
crashes (see `CallErr.sampleNamesTypeError`). -/
def applyCallFilters {n : Nat} (r : TRRecord n) (fs : List (CallFilter n))
    (s : SampleInfo n) (_names : Fin n → String) :
    Except CallErr (CallFiltersOut n) :=
  match dpField r.format with
  | none => Except.error CallErr.missingDepthField
  | some (FormatArr.strA _) => Except.error CallErr.nonNumericDepth
  | some dpArr =>
    if (List.finRange n).any (negDepthOf fs r dpArr) then
      Except.error CallErr.sampleNamesTypeError
    else
      Except.ok
        { outRecord :=
            if (List.finRange n).all (fun i => !(filteredOf fs r i)) then r
            else maskRecord r (filteredOf fs r),
          sinfo := sinfoDepth fs r dpArr (sinfoNumcalls fs r s),
          filterText := finalFilterText fs r }

/-- Reduction of `applyCallFilters` once the depth-like field is known to be
an integer array. -/
theorem applyCallFilters_intA {n : Nat} (r : TRRecord n)
    (fs : List (CallFilter n)) (s : SampleInfo n) (names : Fin n → String)
    (dpv : Fin n → Int) (hdp : dpField r.format = some (FormatArr.intA dpv)) :
    applyCallFilters r fs s names =
      if (List.finRange n).any (negDepthOf fs r (FormatArr.intA dpv)) then
        Except.error CallErr.sampleNamesTypeError
      else
        Except.ok
          { outRecord :=
              if (List.finRange n).all (fun i => !(filteredOf fs r i)) then r
              else maskRecord r (filteredOf fs r),
            sinfo := sinfoDepth fs r (FormatArr.intA dpv) (sinfoNumcalls fs r s),
            filterText := finalFilterText fs r } := by
  unfold applyCallFilters
  rw [hdp]

/-- Reduction of `applyCallFilters` once the depth-like field is known to be
a float array. -/
theorem applyCallFilters_fltA {n : Nat} (r : TRRecord n)
    (fs : List (CallFilter n)) (s : SampleInfo n) (names : Fin n → String)
    (dpv : Fin n → Option ℚ) (hdp : dpField r.format = some (FormatArr.fltA dpv)) :
    applyCallFilters r fs s names =
      if (List.finRange n).any (negDepthOf fs r (FormatArr.fltA dpv)) then
        Except.error CallErr.sampleNamesTypeError
      else
        Except.ok
          { outRecord :=
              if (List.finRange n).all (fun i => !(filteredOf fs r i)) then r
              else maskRecord r (filteredOf fs r),
            sinfo := sinfoDepth fs r (FormatArr.fltA dpv) (sinfoNumcalls fs r s),
            filterText := finalFilterText fs r } := by
  unfold applyCallFilters
  rw [hdp]

/-! ### Claims C1-C3 -/

/-- A concrete one-sample record (called) for the truncation scenarios. -/
def rOneCex : TRRecord 1 :=
  { chrom := "chr9", pos := 9, refAllele := "AT", altAlleles := [],
    motif := "AT",
    genotypes := fun _ => [0, 0],
    format := [("DP", FormatArr.intA (fun _ => 8))],
    filterStatus := none }

/-- A call filter with the given name that fires on every sample with
trigger value 1 (rendered `"1"`). -/
def mkCex (nm : String) : CallFilter 1 := { name := nm, eval := fun _ _ => some 1 }

/-- Six single-character-named call filters, all firing at full rendered
width: enough to exhaust the 4 characters of slack granted by the initial
`'U4'` dtype. -/
def cexFs : List (CallFilter 1) :=
  [mkCex "A", mkCex "B", mkCex "C", mkCex "D", mkCex "E", mkCex "F"]

/-- The same six filters, the last two transposed. -/
def cexFsSwap : List (CallFilter 1) :=
  [mkCex "A", mkCex "B", mkCex "C", mkCex "D", mkCex "F", mkCex "E"]

/-- C1 counterexample: with six co-firing call filters the in-place comma
append of the sixth filter is silently truncated (the sample's text exactly
fills the array width after the fifth), so the emitted trigger text
`A_1,B_1,C_1,D_1,E_1F_1` is missing a separating comma — neither `"PASS"`
nor `"NOCALL"` nor the comma-separated list of the firing entries. -/
theorem claim1_counterexample :
    calledGT (rOneCex.genotypes 0) = true ∧
    finalFilterText cexFs rOneCex 0 = "A_1,B_1,C_1,D_1,E_1F_1" ∧
    commaJoin (firedTexts cexFs rOneCex 0) = "A_1,B_1,C_1,D_1,E_1,F_1" ∧
    finalFilterText cexFs rOneCex 0 ≠ "PASS" ∧
    finalFilterText cexFs rOneCex 0 ≠ "NOCALL" ∧
    finalFilterText cexFs rOneCex 0 ≠ commaJoin (firedTexts cexFs rOneCex 0) := by
  refine ⟨rfl, rfl, rfl, ?_, ?_, ?_⟩ <;> decide

/-- C1 (amended): for every record and sample, the final trigger text of an
already-uncalled sample is exactly the no-call marker `"NOCALL"`, overriding
any filter text; and whenever at most five filters fire on a sample — so the
fixed-width trigger-text array never silently truncates a separating comma —
the sample's final text is one of `"PASS"`, `"NOCALL"`, or the
comma-separated list of the firing filters' names each suffixed by `'_'` and
the numeric trigger value. -/
theorem claim1_trigger_text_shape {n : Nat} (fs : List (CallFilter n))
    (r : TRRecord n) (i : Fin n) :
    (calledGT (r.genotypes i) = false → finalFilterText fs r i = "NOCALL") ∧
    ((firedTexts fs r i).length ≤ 5 →
      (finalFilterText fs r i = "PASS" ∨ finalFilterText fs r i = "NOCALL" ∨
        finalFilterText fs r i = commaJoin (firedTexts fs r i))) := by
  constructor
  · intro h
    rw [finalFilterText_eq_NOCALL_iff]
    exact h
  · intro h5
    by_cases hc : calledGT (r.genotypes i)
    · by_cases hf : firedTexts fs r i = []
      · left
        rw [finalFilterText_eq_PASS_iff]
        exact ⟨hc, hf⟩
      · right; right
        exact finalFilterText_eq_commaJoin_of_le hc hf h5
    · right; left
      rw [finalFilterText_eq_NOCALL_iff]
      simpa using hc

/-- A concrete two-sample record: sample 0 called, sample 1 uncalled. -/
def rTwo : TRRecord 2 :=
  { chrom := "chr1", pos := 100, refAllele := "ACACAC", altAlleles := ["ACAC"],
    motif := "AC",
    genotypes := fun i => if i.val = 0 then [0, 1] else [-1, -1],
    format := [("DP", FormatArr.intA (fun i => if i.val = 0 then 15 else 10))],
    filterStatus := none }

/-- A concrete call filter firing on sample 0 with trigger value 5. -/
def fMinDepth : CallFilter 2 :=
  { name := "MinDepth", eval := fun _ i => if i.val = 0 then some 5 else none }

/-- Witness for C1 (amended) at a concrete uncalled sample. -/
theorem claim1_trigger_text_shape_witness :
    finalFilterText [fMinDepth] rTwo 1 = "NOCALL" ∧
    (finalFilterText [fMinDepth] rTwo 1 = "PASS" ∨
      finalFilterText [fMinDepth] rTwo 1 = "NOCALL" ∨
      finalFilterText [fMinDepth] rTwo 1 = commaJoin (firedTexts [fMinDepth] rTwo 1)) :=
  ⟨(claim1_trigger_text_shape [fMinDepth] rTwo 1).1 (by decide),
   (claim1_trigger_text_shape [fMinDepth] rTwo 1).2 (by decide)⟩

/-- A general characterization of the negative-depth abort: with an integer
depth-like field, `ApplyCallFilters` aborts (with the message-formatting
`TypeError`) exactly when some sample whose final status is `"PASS"` has
depth strictly negative and different from the integer missing sentinel;
otherwise the call succeeds. -/
theorem applyCallFilters_abort_iff_negative_depth {n : Nat} (r : TRRecord n)
    (fs : List (CallFilter n)) (s : SampleInfo n) (names : Fin n → String)
    (dpv : Fin n → Int) (hdp : dpField r.format = some (FormatArr.intA dpv)) :
    ((∃ i, extantOf fs r i = true ∧ dpv i < 0 ∧ dpv i ≠ nocallInt) →
      applyCallFilters r fs s names = Except.error CallErr.sampleNamesTypeError) ∧
    ((∀ i, extantOf fs r i = true → 0 ≤ dpv i ∨ dpv i = nocallInt) →
      ∃ out, applyCallFilters r fs s names = Except.ok out) := by
  rw [applyCallFilters_intA r fs s names dpv hdp]
  constructor
  · intro ⟨i, hext, hlt, hne⟩
    have hany : (List.finRange n).any (negDepthOf fs r (FormatArr.intA dpv)) = true := by
      rw [List.any_eq_true]
      refine ⟨i, List.mem_finRange i, ?_⟩
      unfold negDepthOf
      simp [faLtZero, faEqSentinel, hlt, hne, hext]
    simp [hany]
  · intro hok
    have hany : (List.finRange n).any (negDepthOf fs r (FormatArr.intA dpv)) = false := by
      rw [Bool.eq_false_iff]
      intro hcon
      rw [List.any_eq_true] at hcon
      obtain ⟨i, _, hi⟩ := hcon
      unfold negDepthOf at hi
      simp only [faLtZero, faEqSentinel, Bool.and_eq_true, decide_eq_true_eq,
        Bool.not_eq_true', decide_eq_false_iff_not] at hi
      obtain ⟨⟨hlt, hne⟩, hext⟩ := hi
      rcases hok i hext with h | h
      · omega
      · exact hne h
    rw [hany]
    exact ⟨_, rfl⟩

/-- A concrete two-sample record, both samples called, with `DP` depths
`[5, -3]`. -/
def dpB : Fin 2 → Int := fun i => if i.val = 0 then 5 else -3

def rNegDp : TRRecord 2 :=
  { chrom := "chr7", pos := 424, refAllele := "TTTT", altAlleles := [],
    motif := "T",
    genotypes := fun _ => [0, 0],
    format := [("DP", FormatArr.intA dpB)],
    filterStatus := none }

/-- The same record with depths `[5, 3]`. -/
def dpPos : Fin 2 → Int := fun i => if i.val = 0 then 5 else 3

def rPosDp : TRRecord 2 :=
  { chrom := "chr7", pos := 424, refAllele := "TTTT", altAlleles := [],
    motif := "T",
    genotypes := fun _ => [0, 0],
    format := [("DP", FormatArr.intA dpPos)],
    filterStatus := none }

def sinfoTwo : SampleInfo 2 :=
  { numcalls := fun _ => 0, totaldp := fun _ => some 0, filtCounts := fun _ _ => 0 }

def namesTwo : Fin 2 → String := fun i => if i.val = 0 then "s1" else "s2"

/-- C2 (code bug): a passing sample with genuinely negative depth does make
`ApplyCallFilters` abort fatally — but not with the documented `ValueError`
naming the chromosome, position and offending samples: formatting that
message crashes first (a `TypeError` from masking the plain
`invcf.samples` list with a numpy boolean array), so the raised error
carries no locus or sample information. With all depths nonnegative the
same call completes normally. -/
theorem claim2_negative_depth_typeerror :
    applyCallFilters rNegDp [] sinfoTwo namesTwo
      = Except.error CallErr.sampleNamesTypeError ∧
    (∃ out, applyCallFilters rPosDp [] sinfoTwo namesTwo = Except.ok out) :=
  ⟨rfl, ⟨_, rfl⟩⟩

/-- Concrete one-sample inputs without any depth-like field: format has
neither `"DP"` nor `"LC"`. -/
def rNoDp : TRRecord 1 :=
  { chrom := "chr2", pos := 17, refAllele := "AG", altAlleles := [],
    motif := "AG",
    genotypes := fun _ => [0, 0],
    format := [("Q", FormatArr.fltA (fun _ => some 30))],
    filterStatus := none }

def sinfoOne : SampleInfo 1 :=
  { numcalls := fun _ => 0, totaldp := fun _ => some 0, filtCounts := fun _ _ => 0 }

def namesOne : Fin 1 → String := fun _ => "s1"

def dpArrC : Fin 1 → Int := fun _ => 7

def lcArrC : Fin 1 → Int := fun _ => 9

/-- Format mappings carrying both depth-like fields, and only the fallback. -/
def fmtBothC : List (String × FormatArr 1) :=
  [("DP", FormatArr.intA dpArrC), ("LC", FormatArr.intA lcArrC)]

def fmtLCC : List (String × FormatArr 1) :=
  [("LC", FormatArr.intA lcArrC)]

/-- C3 (code bug): the depth-like field is read as `"DP"` first, else
`"LC"`; but when neither is present `ApplyCallFilters` does not complete with
`totaldp` poisoned to NaN — it aborts with the `KeyError` escaping
`record.format['LC']`, because the second `except KeyError: pass` clause of
the same `try` (lines 628-629) cannot catch an exception raised inside the
first handler. -/
theorem claim3_depth_fallback_keyerror :
    dpField fmtBothC = some (FormatArr.intA dpArrC) ∧
    dpField fmtLCC = some (FormatArr.intA lcArrC) ∧
    applyCallFilters rNoDp [] sinfoOne namesOne =
      Except.error CallErr.missingDepthField :=
  ⟨rfl, rfl, rfl⟩

/-! ### `ApplyLocusFilters` (dumpSTR.py lines 852-908) -/

/-- A locus-level filter (spec §3): a named pure predicate on the whole
record; `none` means pass, any reason means the filter fired. The source
only tests `filt(record) is None` and then uses `filt.filter_name()`. -/
structure LocusFilter (n : Nat) where
  filterName : String
  check : TRRecord n → Option String

/-- State threaded through the locus-filter loop: whether anything fired,
the locus counter table, and the record's FILTER status. The counter table
is a total function since `main` pre-populates every key it can be bumped at
(lines 1193-1197). -/
structure LocusState where
  filtered : Bool
  locInfo : String → Nat
  status : Option String

/-- `loc_info[k] += 1`. -/
def bump (m : String → Nat) (k : String) : String → Nat :=
  fun k2 => if k2 = k then m k + 1 else m k2

/-- `loc_info[k] += v`. -/
def bumpBy (m : String → Nat) (k : String) (v : Nat) : String → Nat :=
  fun k2 => if k2 = k then m k + v else m k2

/-- One iteration of the locus-filter loop (lines 881-890): a firing filter
bumps its counter and, when filtered loci are retained rather than dropped,
sets the FILTER status on first fire and appends `';' + name` afterwards. -/
def locusStep {n : Nat} (r : TRRecord n) (drop : Bool) (st : LocusState)
    (f : LocusFilter n) : LocusState :=
  match f.check r with
  | none => st
  | some _ =>
    { filtered := true,
      locInfo := bump st.locInfo f.filterName,
      status :=
        if drop then st.status
        else if st.filtered then st.status.map (fun s => s ++ ";" ++ f.filterName)
        else some f.filterName }

/-- The state after the configured locus filters have run. -/
def locusMid {n : Nat} (r : TRRecord n) (fs : List (LocusFilter n))
    (locInfo : String → Nat) (drop : Bool) : LocusState :=
  fs.foldl (locusStep r drop) { filtered := false, locInfo := locInfo, status := r.filterStatus }

/-- The unconditional no-calls-remaining check after the loop (lines
892-900): when no sample is still called, bump the fixed
`NO_CALLS_REMAINING` counter and apply the reason to the FILTER status the
same way a filter would. -/
def locusAfterNoCalls {n : Nat} (r : TRRecord n) (fs : List (LocusFilter n))
    (locInfo : String → Nat) (drop : Bool) : LocusState :=
  if calledCount r = 0 then
    { filtered := true,
      locInfo := bump (locusMid r fs locInfo drop).locInfo "NO_CALLS_REMAINING",
      status :=
        if drop then (locusMid r fs locInfo drop).status
        else if (locusMid r fs locInfo drop).filtered then
          (locusMid r fs locInfo drop).status.map (fun s => s ++ ";" ++ "NO_CALLS_REMAINING")
        else some "NO_CALLS_REMAINING" }
  else locusMid r fs locInfo drop

/-- The pass path (lines 902-906): if nothing fired, set FILTER to `"PASS"`
(only when filtered loci are retained) and bump the `PASS` and `totalcalls`
counters. -/
def locusFinal {n : Nat} (r : TRRecord n) (fs : List (LocusFilter n))
    (locInfo : String → Nat) (drop : Bool) : LocusState :=
  if (locusAfterNoCalls r fs locInfo drop).filtered then
    locusAfterNoCalls r fs locInfo drop
  else
    { filtered := false,
      locInfo := bumpBy (bump (locusAfterNoCalls r fs locInfo drop).locInfo "PASS")
        "totalcalls" (calledCount r),
      status :=
        if drop then (locusAfterNoCalls r fs locInfo drop).status else some "PASS" }

/-- `ApplyLocusFilters` (lines 852-908). Returns the filtered decision, the
updated locus counter table, and the record (whose only mutation is its
FILTER status, lines 887/889/897/899/904). -/
def applyLocusFilters {n : Nat} (r : TRRecord n) (fs : List (LocusFilter n))
    (locInfo : String → Nat) (drop : Bool) :
    Bool × (String → Nat) × TRRecord n :=
  ((locusFinal r fs locInfo drop).filtered,
   (locusFinal r fs locInfo drop).locInfo,
   { r with filterStatus := (locusFinal r fs locInfo drop).status })

/-! ### Claims C5, C6, C9 -/

/-- C5: whenever no sample is still called after the configured locus filters
have run, `ApplyLocusFilters` bumps the fixed `NO_CALLS_REMAINING` counter,
appends the reason to the locus FILTER status when filtered loci are
retained, and returns `true` — for every record, every filter list (including
the empty one), and both drop modes. -/
theorem claim5_no_calls_remaining {n : Nat} (r : TRRecord n)
    (fs : List (LocusFilter n)) (locInfo : String → Nat) (drop : Bool)
    (h : calledCount r = 0) :
    (applyLocusFilters r fs locInfo drop).1 = true ∧
    (applyLocusFilters r fs locInfo drop).2.1 "NO_CALLS_REMAINING"
      = (locusMid r fs locInfo drop).locInfo "NO_CALLS_REMAINING" + 1 ∧
    (drop = false →
      (applyLocusFilters r fs locInfo drop).2.2.filterStatus =
        if (locusMid r fs locInfo drop).filtered then
          (locusMid r fs locInfo drop).status.map (fun s => s ++ ";" ++ "NO_CALLS_REMAINING")
        else some "NO_CALLS_REMAINING") := by
  have hA : locusAfterNoCalls r fs locInfo drop =
      { filtered := true,
        locInfo := bump (locusMid r fs locInfo drop).locInfo "NO_CALLS_REMAINING",
        status :=
          if drop then (locusMid r fs locInfo drop).status
          else if (locusMid r fs locInfo drop).filtered then
            (locusMid r fs locInfo drop).status.map (fun s => s ++ ";" ++ "NO_CALLS_REMAINING")
          else some "NO_CALLS_REMAINING" } := by
    unfold locusAfterNoCalls
    rw [if_pos h]
  have hF : locusFinal r fs locInfo drop = locusAfterNoCalls r fs locInfo drop := by
    unfold locusFinal
    rw [hA]
    simp
  unfold applyLocusFilters
  rw [hF, hA]
  refine ⟨rfl, ?_, ?_⟩
  · unfold bump
    simp
  · intro hdrop
    rw [hdrop]
    simp

/-- A concrete one-sample record with the sample uncalled. -/
def rUncalled : TRRecord 1 :=
  { chrom := "chr3", pos := 55, refAllele := "GT", altAlleles := ["GTGT"],
    motif := "GT",
    genotypes := fun _ => [-1, -1],
    format := [],
    filterStatus := none }

def locInfoZ : String → Nat := fun _ => 0

/-- Witness for C5 at a concrete all-uncalled record with no locus filters. -/
theorem claim5_no_calls_remaining_witness :
    (applyLocusFilters rUncalled [] locInfoZ false).1 = true ∧
    (applyLocusFilters rUncalled [] locInfoZ false).2.1 "NO_CALLS_REMAINING"
      = (locusMid rUncalled [] locInfoZ false).locInfo "NO_CALLS_REMAINING" + 1 ∧
    (false = false →
      (applyLocusFilters rUncalled [] locInfoZ false).2.2.filterStatus =
        if (locusMid rUncalled [] locInfoZ false).filtered then
          (locusMid rUncalled [] locInfoZ false).status.map (fun s => s ++ ";" ++ "NO_CALLS_REMAINING")
        else some "NO_CALLS_REMAINING") :=
  claim5_no_calls_remaining rUncalled [] locInfoZ false (by decide)

/-- A concrete one-sample record, called, with a pre-existing FILTER status. -/
def rCalledOrig : TRRecord 1 :=
  { chrom := "chr4", pos := 77, refAllele := "CAG", altAlleles := [],
    motif := "CAG",
    genotypes := fun _ => [0, 0],
    format := [],
    filterStatus := some "ORIG" }

/-- C6 counterexample: with `drop_filtered` true, a record where no locus
filter fires and one sample is called keeps its prior FILTER status — it is
not set to `"PASS"` as the claim states for every record. -/
theorem claim6_counterexample :
    0 < calledCount rCalledOrig ∧
    (applyLocusFilters rCalledOrig [] locInfoZ true).1 = false ∧
    (applyLocusFilters rCalledOrig [] locInfoZ true).2.2.filterStatus = some "ORIG" ∧
    some "ORIG" ≠ some "PASS" := by
  refine ⟨by decide, rfl, rfl, by decide⟩

/-- C6 (amended): when no configured locus filter fires and at least one
sample is still called, `ApplyLocusFilters` returns `false`, bumps the
`"PASS"` counter by one and the `"totalcalls"` counter by the
post-call-filter called-sample count; the record's FILTER status is set to
`"PASS"` when filtered loci are retained (`drop_filtered` false) — with
`drop_filtered` true the status is left untouched. -/
theorem claim6_pass_path {n : Nat} (r : TRRecord n)
    (fs : List (LocusFilter n)) (locInfo : String → Nat) (drop : Bool)
    (hnone : ∀ f ∈ fs, f.check r = none)
    (hcalled : 0 < calledCount r) :
    (applyLocusFilters r fs locInfo drop).1 = false ∧
    (applyLocusFilters r fs locInfo drop).2.1 "PASS" = locInfo "PASS" + 1 ∧
    (applyLocusFilters r fs locInfo drop).2.1 "totalcalls"
      = locInfo "totalcalls" + calledCount r ∧
    (applyLocusFilters r fs locInfo drop).2.2.filterStatus
      = (if drop then r.filterStatus else some "PASS") := by
  have hmid : locusMid r fs locInfo drop
      = { filtered := false, locInfo := locInfo, status := r.filterStatus } := by
    unfold locusMid
    induction fs with
    | nil => rfl
    | cons f fs ih =>
      rw [List.foldl_cons]
      have hf : locusStep r drop
          { filtered := false, locInfo := locInfo, status := r.filterStatus } f
          = { filtered := false, locInfo := locInfo, status := r.filterStatus } := by
        unfold locusStep
        rw [hnone f (List.mem_cons_self f fs)]
      rw [hf]
      exact ih (fun g hg => hnone g (List.mem_cons_of_mem f hg))
  have hA : locusAfterNoCalls r fs locInfo drop
      = { filtered := false, locInfo := locInfo, status := r.filterStatus } := by
    unfold locusAfterNoCalls
    rw [if_neg (by omega : ¬calledCount r = 0), hmid]
  have hF : locusFinal r fs locInfo drop
      = { filtered := false,
          locInfo := bumpBy (bump locInfo "PASS") "totalcalls" (calledCount r),
          status := if drop then r.filterStatus else some "PASS" } := by
    unfold locusFinal
    rw [hA]
    simp
  unfold applyLocusFilters
  rw [hF]
  refine ⟨rfl, ?_, ?_, rfl⟩
  · unfold bumpBy bump
    simp
  · unfold bumpBy bump
    simp

/-- Witness for C6 (amended) at a concrete record with `drop_filtered`
false. -/
theorem claim6_pass_path_witness :
    (applyLocusFilters rCalledOrig [] locInfoZ false).1 = false ∧
    (applyLocusFilters rCalledOrig [] locInfoZ false).2.1 "PASS" = locInfoZ "PASS" + 1 ∧
    (applyLocusFilters rCalledOrig [] locInfoZ false).2.1 "totalcalls"
      = locInfoZ "totalcalls" + calledCount rCalledOrig ∧
    (applyLocusFilters rCalledOrig [] locInfoZ false).2.2.filterStatus
      = (if false then rCalledOrig.filterStatus else some "PASS") :=
  claim6_pass_path rCalledOrig [] locInfoZ false (by intro f hf; cases hf) (by decide)

/-- C9: with `drop_filtered` true, `ApplyLocusFilters` never modifies the
record — the returned record equals the input record (FILTER status and all
other fields unchanged), for every record and locus-filter list. -/
theorem claim9_drop_never_modifies {n : Nat} (r : TRRecord n)
    (fs : List (LocusFilter n)) (locInfo : String → Nat) :
    (applyLocusFilters r fs locInfo true).2.2 = r := by
  have hstatus : ∀ (st : LocusState),
      (fs.foldl (locusStep r true) st).status = st.status := by
    intro st
    induction fs generalizing st with
    | nil => rfl
    | cons f fs ih =>
      rw [List.foldl_cons]
      rw [ih (locusStep r true st f)]
      unfold locusStep
      cases f.check r <;> rfl
  have hmid : (locusMid r fs locInfo true).status = r.filterStatus := hstatus _
  have hA : (locusAfterNoCalls r fs locInfo true).status = r.filterStatus := by
    unfold locusAfterNoCalls
    by_cases h0 : calledCount r = 0
    · rw [if_pos h0]
      simpa using hmid
    · rw [if_neg h0]
      exact hmid
  have hF : (locusFinal r fs locInfo true).status = r.filterStatus := by
    unfold locusFinal
    by_cases hf : (locusAfterNoCalls r fs locInfo true).filtered
    · rw [if_pos hf]
      exact hA
    · rw [if_neg hf]
      simpa using hA
  unfold applyLocusFilters
  rw [hF]

/-! ### Claim C7: permutation invariance of the call-filter list -/

/-- Boolean characterization of a passing call: called and no filter fired. -/
theorem extantOf_eq {n : Nat} (fs : List (CallFilter n)) (r : TRRecord n)
    (i : Fin n) :
    extantOf fs r i
      = (calledGT (r.genotypes i) && decide (firedTexts fs r i = [])) := by
  unfold extantOf
  by_cases h : finalFilterText fs r i = "PASS"
  · have hcf := (finalFilterText_eq_PASS_iff fs r i).mp h
    rw [h]
    simp [hcf.1, hcf.2]
  · have hne : (finalFilterText fs r i == "PASS") = false := by
      rw [beq_eq_false_iff_ne]
      exact h
    rw [hne]
    by_cases hc : calledGT (r.genotypes i)
    · by_cases hf : firedTexts fs r i = []
      · exact absurd ((finalFilterText_eq_PASS_iff fs r i).mpr ⟨hc, hf⟩) h
      · simp [hf]
    · simp [Bool.eq_false_iff.mpr hc]

/-- Boolean characterization of a filtered call: called and some filter
fired. -/
theorem filteredOf_eq {n : Nat} (fs : List (CallFilter n)) (r : TRRecord n)
    (i : Fin n) :
    filteredOf fs r i
      = (calledGT (r.genotypes i) && !(decide (firedTexts fs r i = []))) := by
  unfold filteredOf
  by_cases hc : calledGT (r.genotypes i)
  · have hnocall : (finalFilterText fs r i == "NOCALL") = false := by
      rw [beq_eq_false_iff_ne]
      intro h
      have := (finalFilterText_eq_NOCALL_iff fs r i).mp h
      rw [hc] at this
      exact absurd this (by decide)
    rw [hnocall]
    by_cases hf : firedTexts fs r i = []
    · have hpass : finalFilterText fs r i = "PASS" :=
        (finalFilterText_eq_PASS_iff fs r i).mpr ⟨hc, hf⟩
      simp [hpass, hc, hf]
    · have hpass : (finalFilterText fs r i == "PASS") = false := by
        rw [beq_eq_false_iff_ne]
        intro h
        exact hf ((finalFilterText_eq_PASS_iff fs r i).mp h).2
      simp [hpass, hc, hf]
  · have hc' : calledGT (r.genotypes i) = false := Bool.eq_false_iff.mpr hc
    have hnocall : finalFilterText fs r i = "NOCALL" :=
      (finalFilterText_eq_NOCALL_iff fs r i).mpr hc'
    simp [hnocall, hc']

/-- The per-filter counter loop counts, at each key and sample, how many
filters of that name fired on that (initially called) sample. -/
theorem foldl_countStep_char {n : Nat} (r : TRRecord n) :
    ∀ (fs : List (CallFilter n)) (c : String → Fin n → Nat) (nm : String)
      (i : Fin n),
    (fs.foldl (countStep r) c) nm i
      = c nm i + fs.countP (fun f =>
          decide (nm = f.name ∧ (f.eval r i).isSome = true
            ∧ calledGT (r.genotypes i) = true))
  | [], c, nm, i => by simp
  | f :: fs, c, nm, i => by
    rw [List.foldl_cons, foldl_countStep_char r fs (countStep r c f) nm i,
      List.countP_cons]
    unfold countStep
    by_cases h : nm = f.name ∧ (f.eval r i).isSome = true
        ∧ calledGT (r.genotypes i) = true
    · rw [if_pos h, decide_eq_true h]
      simp
      omega
    · rw [if_neg h, decide_eq_false h]
      simp

/-- Split a string at commas (inverse of `commaJoin`). -/
def splitCommaAux : List Char → List Char → List String
  | [], acc => [String.mk acc.reverse]
  | c :: rest, acc =>
    if c = ',' then String.mk acc.reverse :: splitCommaAux rest []
    else splitCommaAux rest (c :: acc)

def splitComma (s : String) : List String := splitCommaAux s.data []

/-- C7 counterexample: on the six-co-firing-filter record, transposing the
last two filters moves the silently dropped comma, so the two trigger texts
are not merely reorderings of one another — their comma-separated token
lists are not permutations (`...,E_1F_1` versus `...,F_1E_1`). -/
theorem claim7_counterexample :
    List.Perm cexFs cexFsSwap ∧
    ¬ List.Perm (splitComma (finalFilterText cexFs rOneCex 0))
        (splitComma (finalFilterText cexFsSwap rOneCex 0)) := by
  constructor
  · exact List.Perm.append_left [mkCex "A", mkCex "B", mkCex "C", mkCex "D"]
      (List.Perm.swap (mkCex "F") (mkCex "E") [])
  · decide

/-- C7 (amended): permuting the call-filter list leaves every observable
output of `ApplyCallFilters` other than the trigger text unchanged — the
same error or success, the same masked record, the same sample statistics
(counters, passing-call counts, depth totals) — and each sample's list of
firing `name_value` entries is permuted accordingly. (The concatenated
trigger text itself may differ by more than entry order: the fixed-width
accumulation can drop a separating comma at order-dependent positions, see
the counterexample.) -/
theorem claim7_filter_order_irrelevant {n : Nat} (r : TRRecord n)
    (fs1 fs2 : List (CallFilter n)) (s : SampleInfo n) (names : Fin n → String)
    (hp : fs1.Perm fs2) :
    Except.map (fun o => (o.outRecord, o.sinfo)) (applyCallFilters r fs1 s names)
      = Except.map (fun o => (o.outRecord, o.sinfo)) (applyCallFilters r fs2 s names) ∧
    ∀ i, (firedTexts fs1 r i).Perm (firedTexts fs2 r i) := by
  have htext : ∀ i, (firedTexts fs1 r i).Perm (firedTexts fs2 r i) := fun i =>
    hp.filterMap _
  have hnil : ∀ i, (firedTexts fs1 r i = []) ↔ (firedTexts fs2 r i = []) := by
    intro i
    constructor
    · intro h
      exact List.Perm.eq_nil (h ▸ htext i).symm
    · intro h
      exact List.Perm.eq_nil (h ▸ htext i)
  have hext : extantOf fs1 r = extantOf fs2 r := by
    funext i
    rw [extantOf_eq, extantOf_eq, decide_eq_decide.mpr (hnil i)]
  have hfil : filteredOf fs1 r = filteredOf fs2 r := by
    funext i
    rw [filteredOf_eq, filteredOf_eq, decide_eq_decide.mpr (hnil i)]
  have hcnt : fs1.foldl (countStep r) s.filtCounts
      = fs2.foldl (countStep r) s.filtCounts := by
    funext nm i
    rw [foldl_countStep_char, foldl_countStep_char, hp.countP_eq]
  have hnum : sinfoNumcalls fs1 r s = sinfoNumcalls fs2 r s := by
    unfold sinfoNumcalls
    rw [hext, hcnt]
  have hneg : ∀ dp, negDepthOf fs1 r dp = negDepthOf fs2 r dp := by
    intro dp
    unfold negDepthOf
    rw [hext]
  have hdep : ∀ dp sI, sinfoDepth fs1 r dp sI = sinfoDepth fs2 r dp sI := by
    intro dp sI
    unfold sinfoDepth
    rw [hext]
  refine ⟨?_, htext⟩
  cases hdp : dpField r.format with
  | none =>
    unfold applyCallFilters
    rw [hdp]
  | some dpArr =>
    cases dpArr with
    | strA v =>
      unfold applyCallFilters
      rw [hdp]
    | fltA v =>
      rw [applyCallFilters_fltA r fs1 s names v hdp,
        applyCallFilters_fltA r fs2 s names v hdp,
        hneg, hnum, hdep (FormatArr.fltA v) (sinfoNumcalls fs2 r s), hfil]
      cases hany : (List.finRange n).any (negDepthOf fs2 r (FormatArr.fltA v)) with
      | true => rfl
      | false => simp [Except.map]
    | intA v =>
      rw [applyCallFilters_intA r fs1 s names v hdp,
        applyCallFilters_intA r fs2 s names v hdp,
        hneg, hnum, hdep (FormatArr.intA v) (sinfoNumcalls fs2 r s), hfil]
      cases hany : (List.finRange n).any (negDepthOf fs2 r (FormatArr.intA v)) with
      | true => rfl
      | false => simp [Except.map]

/-- A second concrete call filter, firing on sample 1. -/
def fQual : CallFilter 2 :=
  { name := "Qual", eval := fun _ i => if i.val = 1 then some (1/2) else none }

/-- Witness for C7 at a concrete record and a transposed two-filter list. -/
theorem claim7_filter_order_irrelevant_witness :
    Except.map (fun o => (o.outRecord, o.sinfo))
        (applyCallFilters rTwo [fMinDepth, fQual] sinfoTwo namesTwo)
      = Except.map (fun o => (o.outRecord, o.sinfo))
        (applyCallFilters rTwo [fQual, fMinDepth] sinfoTwo namesTwo) ∧
    ∀ i, (firedTexts [fMinDepth, fQual] rTwo i).Perm
        (firedTexts [fQual, fMinDepth] rTwo i) :=
  claim7_filter_order_irrelevant rTwo [fMinDepth, fQual] [fQual, fMinDepth]
    sinfoTwo namesTwo (List.Perm.swap fQual fMinDepth [])

/-! ### The locus statistics table construction (dumpSTR.py lines 1193-1197)
and claim C4 -/

/-- `collections.OrderedDict` assignment `m[k] = v`: an existing key keeps
its position and receives the new value; a new key is appended at the end. -/
def odInsert (m : List (String × Nat)) (k : String) (v : Nat) :
    List (String × Nat) :=
  if m.any (fun p => p.1 == k) then
    m.map (fun p => if p.1 = k then (k, v) else p)
  else m ++ [(k, v)]

/-- The locus statistics table as `main` builds it (lines 1193-1197):
`totalcalls`, `PASS`, `NO_CALLS_REMAINING`, then one zero counter per
configured locus filter in registration order. -/
def buildLocInfo {n : Nat} (fs : List (LocusFilter n)) : List (String × Nat) :=
  fs.foldl (fun m f => odInsert m f.filterName 0)
    (odInsert (odInsert (odInsert [] "totalcalls" 0) "PASS" 0) "NO_CALLS_REMAINING" 0)

theorem odInsert_of_not_mem {m : List (String × Nat)} {k : String} (v : Nat)
    (hk : k ∉ m.map Prod.fst) : odInsert m k v = m ++ [(k, v)] := by
  unfold odInsert
  have hany : m.any (fun p => p.1 == k) = false := by
    rw [Bool.eq_false_iff]
    intro hc
    rw [List.any_eq_true] at hc
    obtain ⟨p, hp, he⟩ := hc
    exact hk (List.mem_map.mpr ⟨p, hp, eq_of_beq he⟩)
  rw [hany]
  simp

theorem foldl_odInsert_fresh {n : Nat} :
    ∀ (fs : List (LocusFilter n)) (m : List (String × Nat)),
    (∀ f ∈ fs, f.filterName ∉ m.map Prod.fst) →
    (fs.map (fun f => f.filterName)).Nodup →
    (fs.foldl (fun m f => odInsert m f.filterName 0) m).map Prod.fst
      = m.map Prod.fst ++ fs.map (fun f => f.filterName)
  | [], m, _, _ => by simp
  | f :: fs, m, hfresh, hnodup => by
    have hsplit := List.nodup_cons.mp
      (show (f.filterName :: fs.map (fun g => g.filterName)).Nodup from hnodup)
    rw [List.foldl_cons,
      odInsert_of_not_mem 0 (hfresh f (List.mem_cons_self f fs))]
    rw [foldl_odInsert_fresh fs (m ++ [(f.filterName, 0)]) ?_ hsplit.2]
    · simp
    · intro g hg
      rw [List.map_append]
      intro hcon
      rcases List.mem_append.mp hcon with h | h
      · exact hfresh g (List.mem_cons_of_mem f hg) h
      · simp only [List.map_cons, List.map_nil, List.mem_singleton] at h
        exact hsplit.1 (List.mem_map.mpr ⟨g, hg, h⟩)

/-- A concrete locus filter named `HRUN` that never fires. -/
def hrunF : LocusFilter 1 := { filterName := "HRUN", check := fun _ => none }

/-- C4 counterexample: with one configured locus filter (`HRUN`), the table's
key order is `totalcalls, PASS, NO_CALLS_REMAINING, HRUN` — the fixed
`NO_CALLS_REMAINING` counter comes third, not as the terminal entry after the
per-filter counters as the claim states. -/
theorem claim4_counterexample :
    (buildLocInfo [hrunF]).map Prod.fst
      = ["totalcalls", "PASS", "NO_CALLS_REMAINING", "HRUN"] ∧
    (buildLocInfo [hrunF]).map Prod.fst
      ≠ ["totalcalls", "PASS", "HRUN", "NO_CALLS_REMAINING"] := by
  constructor <;> decide

/-- C4 (amended): the locus statistics table is ordered `totalcalls`, then
`PASS`, then the fixed `NO_CALLS_REMAINING` counter, and then one counter per
configured locus filter in registration order (for filter names distinct
from each other and from the three fixed keys). -/
theorem claim4_loc_table_order {n : Nat} (fs : List (LocusFilter n))
    (hfresh : ∀ f ∈ fs,
      f.filterName ∉ (["totalcalls", "PASS", "NO_CALLS_REMAINING"] : List String))
    (hnodup : (fs.map (fun f => f.filterName)).Nodup) :
    (buildLocInfo fs).map Prod.fst
      = ["totalcalls", "PASS", "NO_CALLS_REMAINING"]
          ++ fs.map (fun f => f.filterName) := by
  have hkeys : (odInsert (odInsert (odInsert [] "totalcalls" 0) "PASS" 0)
      "NO_CALLS_REMAINING" 0).map Prod.fst
      = ["totalcalls", "PASS", "NO_CALLS_REMAINING"] := by decide
  unfold buildLocInfo
  rw [foldl_odInsert_fresh fs _ (by simp only [hkeys]; exact hfresh) hnodup, hkeys]

/-- Witness for C4 (amended) at the concrete one-filter configuration. -/
theorem claim4_loc_table_order_witness :
    (buildLocInfo [hrunF]).map Prod.fst
      = ["totalcalls", "PASS", "NO_CALLS_REMAINING"]
          ++ [hrunF].map (fun f => f.filterName) :=
  claim4_loc_table_order [hrunF] (by decide) (by decide)

/-! ### The locus INFO recomputation of `main` (lines 1244-1267)
and claim C8 -/

/-- A value written into a VCF INFO field. -/
inductive InfoVal where
  | intV : Int → InfoVal
  | floatV : ℚ → InfoVal
  | strV : String → InfoVal
  deriving DecidableEq

/-- The four locus-level INFO aggregates rewritten per emitted record. -/
structure LocusInfoUpd where
  het : InfoVal
  hwep : InfoVal
  ac : InfoVal
  refac : InfoVal
  deriving DecidableEq

/-- The metric library (`record.GetAlleleFreqs` / `GetGenotypeCounts` /
`GetAlleleCounts` and `utils.GetHeterozygosity` /
`GetHardyWeinbergBinomialTest`), which lives outside the embedded sources;
the INFO recomputation is parametric in it. `alleleCount` already returns 0
for indices absent from the counts dict, mirroring the fill-in loop at
lines 1251-1253. -/
structure MetricLib (n : Nat) where
  heterozygosity : TRRecord n → Bool → ℚ
  hweP : TRRecord n → Bool → ℚ
  alleleCount : TRRecord n → Nat → Int

/-- The INFO recomputation block of `main` (lines 1244-1267): with at least
one called sample the metric library computes HET, HWEP, AC (the comma-join
of the alternate-allele counts for indices `1..n_alleles-1`, or the integer 0
when there is no alternate allele) and REFAC; with zero called samples the
fixed sentinels are written without consulting the metric library. -/
def recomputeLocusInfo {n : Nat} (m : MetricLib n) (useLength : Bool)
    (r : TRRecord n) : LocusInfoUpd :=
  if 0 < calledCount r then
    { het := InfoVal.floatV (m.heterozygosity r useLength),
      hwep := InfoVal.floatV (m.hweP r useLength),
      ac :=
        if r.altAlleles.length + 1 = 1 then InfoVal.intV 0
        else InfoVal.strV (commaJoin ((List.range r.altAlleles.length).map
          (fun k => toString (m.alleleCount r (k + 1))))),
      refac := InfoVal.intV (m.alleleCount r 0) }
  else
    { het := InfoVal.intV (-1),
      hwep := InfoVal.intV (-1),
      ac :=
        if r.altAlleles.length = 0 then InfoVal.intV 0
        else InfoVal.strV (commaJoin (List.replicate r.altAlleles.length "0")),
      refac := InfoVal.intV 0 }

/-- C8: for a record with zero called samples after call-level filtering, the
INFO aggregates are set to the fixed sentinels — HET = −1, HWEP = −1, AC a
zero count per alternate allele (the integer 0 when there are none), and
REFAC = 0 — independently of the metric library, which is not run. -/
theorem claim8_sentinel_info {n : Nat} (r : TRRecord n) (useLength : Bool)
    (m1 m2 : MetricLib n) (h : calledCount r = 0) :
    recomputeLocusInfo m1 useLength r = recomputeLocusInfo m2 useLength r ∧
    recomputeLocusInfo m1 useLength r =
      { het := InfoVal.intV (-1),
        hwep := InfoVal.intV (-1),
        ac :=
          if r.altAlleles.length = 0 then InfoVal.intV 0
          else InfoVal.strV (commaJoin (List.replicate r.altAlleles.length "0")),
        refac := InfoVal.intV 0 } := by
  unfold recomputeLocusInfo
  rw [h]
  simp

/-- Two observably different metric libraries. -/
def mLibA : MetricLib 1 := ⟨fun _ _ => 0, fun _ _ => 0, fun _ _ => 0⟩

def mLibB : MetricLib 1 := ⟨fun _ _ => 1, fun _ _ => 1, fun _ _ => 1⟩

/-- Witness for C8 at a concrete all-uncalled record, with two different
metric libraries. -/
theorem claim8_sentinel_info_witness :
    recomputeLocusInfo mLibA false rUncalled = recomputeLocusInfo mLibB false rUncalled ∧
    recomputeLocusInfo mLibA false rUncalled =
      { het := InfoVal.intV (-1),
        hwep := InfoVal.intV (-1),
        ac :=
          if rUncalled.altAlleles.length = 0 then InfoVal.intV 0
          else InfoVal.strV (commaJoin (List.replicate rUncalled.altAlleles.length "0")),
        refac := InfoVal.intV 0 } :=
  claim8_sentinel_info rUncalled false mLibA mLibB (by decide)

end DumpSTR

namespace SiSTR

/-- The member names of the `SISTRCommands` enum (siSTR.py lines 26-30);
`index` is currently the only member. -/
def sistrCommands : List String := ["index"]

/-- Outcome of `siSTR.main`: `warnExit msg code` models `common.WARNING(msg)`
followed by `sys.exit(code)`; `ret` models returning the subcommand's
result; `retNone` models falling off the end of the function (unreachable
while the enum has only the `index` member). -/
inductive MainOutcome (A : Type) where
  | warnExit (msg : String) (code : Nat)
  | ret (val : A)
  | retNone

/-- `siSTR.main` (siSTR.py lines 156-164): `SISTRCommands[args.command]`
raises `KeyError` for a string that is not a member name, which is caught
and turned into a warning plus `sys.exit(1)`; the `index` command returns
`index.main(args)`, which lives outside the embedded sources and is
therefore a parameter. -/
def sistrMain {A : Type} (indexMain : A) (command : String) : MainOutcome A :=
  if command ∈ sistrCommands then
    (if command = "index" then MainOutcome.ret indexMain else MainOutcome.retNone)
  else
    MainOutcome.warnExit ("Command " ++ command ++ " invalid") 1

/-- C10: a command string that is not a member of `SISTRCommands` makes
`siSTR.main` exit with status 1 after a warning, never reaching a
subcommand; the `index` command returns the `index` subcommand's result. -/
theorem claim10_command_dispatch {A : Type} (indexMain : A) (command : String) :
    (command ∉ sistrCommands →
      sistrMain indexMain command
        = MainOutcome.warnExit ("Command " ++ command ++ " invalid") 1) ∧
    sistrMain indexMain "index" = MainOutcome.ret indexMain := by
  constructor
  · intro h
    unfold sistrMain
    rw [if_neg h]
  · rfl

/-- Witness for C10 at a concrete invalid command and the `index` command. -/
theorem claim10_command_dispatch_witness :
    sistrMain (37 : Int) "bogus"
      = MainOutcome.warnExit ("Command " ++ "bogus" ++ " invalid") 1 ∧
    sistrMain (37 : Int) "index" = MainOutcome.ret 37 :=
  ⟨(claim10_command_dispatch (37 : Int) "bogus").1 (by decide),
   (claim10_command_dispatch (37 : Int) "bogus").2⟩

end SiSTR
